import Mathlib

/-!
Verification of the MsABON discovery-to-REST mapping engine.

The definitions below are a shallow embedding of the JavaScript source
(`generator.js` and the server bootstrap): the type mapper, the advanced
template executor (placeholder substitution and the read-only guard), the
SQL synthesizer for list/create/update, and the route/schema registration
performed by `setupDynamicRoutes`.  Pure string-building code is embedded
as Lean functions on `String`/`List Char`; JavaScript values appearing in
request bodies are embedded as `JSValue`; the database is abstracted as a
function from issued SQL text to the returned final result set.
-/

namespace Msabon

deriving instance DecidableEq for Except

/-! ### Character and string helpers mirroring the JavaScript runtime -/

/-- The single-quote character (code 39). -/
def sqC : Char := Char.ofNat 39

/-- Left curly brace (code 123). -/
def lbC : Char := Char.ofNat 123

/-- Right curly brace (code 125). -/
def rbC : Char := Char.ofNat 125

/-- A one-character string holding a single quote. -/
def sqS : String := String.mk [sqC]

/-- Character-wise uppercase, as JavaScript `toUpperCase` acts on ASCII text. -/
def upperStr (s : String) : String := String.mk (s.data.map Char.toUpper)

/-- Character-wise lowercase, as JavaScript `toLowerCase` acts on ASCII text. -/
def lowerStr (s : String) : String := String.mk (s.data.map Char.toLower)

/-- The list `p` occurs at the start of `l`. -/
def LeadsWith (p l : List Char) : Prop := ∃ t, l = p ++ t

/-- The list `p` occurs as a contiguous segment of `l`
(JavaScript `String.prototype.includes`). -/
def SegIn (p l : List Char) : Prop := ∃ s t, l = s ++ p ++ t

/-- Boolean test for `LeadsWith`. -/
def leadsB : List Char → List Char → Bool
  | [], _ => true
  | _ :: _, [] => false
  | a :: p, b :: l => a == b && leadsB p l

/-- Boolean test for `SegIn`. -/
def segB (p : List Char) : List Char → Bool
  | [] => leadsB p []
  | c :: t => leadsB p (c :: t) || segB p t

/-- JavaScript `s.includes(sub)`. -/
def strContains (s sub : String) : Bool := segB sub.data s.data

/-! ### Type Mapper (`mapSqlTypeToMssqlType`, `toOpenApiType`, `mapTypeNameToMssql`) -/

/-- The bind types of the `mssql` driver that the type mapper can produce. -/
inductive MssqlBindType where
  | nvarchar (len : Int)
  | nvarcharMax
  | intType
  | bigIntType
  | bitType
  | decimalType (precision scale : Int)
  | floatType
  | dateTimeType
  deriving DecidableEq

/-- Function `mapSqlTypeToMssqlType` from the source: maps an INFORMATION_SCHEMA column
descriptor (`DATA_TYPE`, `CHARACTER_MAXIMUM_LENGTH`) to a parameter bind type.
Transcribed branch for branch in source order, including the branch
`t === 'bigint'` that sits after the generic `t.includes('int')` test.
`charMaxLen = none` models a NULL / absent catalog length (falsy in JS, as is `0`). -/
def mapSqlTypeToMssqlType (dataType : String) (charMaxLen : Option Int) : MssqlBindType :=
  let t := lowerStr dataType
  if strContains t "char" || t == "text" || t == "ntext" then
    match charMaxLen with
    | some n => if 0 < n then .nvarchar n else .nvarcharMax
    | none => .nvarcharMax
  else if strContains t "int" then .intType
  else if t == "bigint" then .bigIntType
  else if t == "bit" then .bitType
  else if strContains t "decimal" || t == "numeric" then .decimalType 18 4
  else if strContains t "float" || t == "real" then .floatType
  else if strContains t "date" || strContains t "time" then .dateTimeType
  else if t == "uniqueidentifier" then .nvarchar 50
  else .nvarcharMax

/-- A coarse OpenAPI schema type: a `type` string and an optional `format`. -/
structure OpenApiType where
  type : String
  format : Option String
  deriving DecidableEq

/-- Function `toOpenApiType` from the source: maps a column `DATA_TYPE` to its OpenAPI
schema description.  Transcribed branch for branch in source order, including
the branch `t === 'bigint'` that sits after the generic `t.includes('int')` test. -/
def toOpenApiType (dataType : String) : OpenApiType :=
  let t := lowerStr dataType
  if strContains t "int" then ⟨"integer", none⟩
  else if t == "bigint" then ⟨"integer", some "int64"⟩
  else if t == "bit" then ⟨"boolean", none⟩
  else if strContains t "float" || t == "real" || strContains t "decimal" || t == "numeric" then
    ⟨"number", none⟩
  else if strContains t "date" || strContains t "time" then ⟨"string", some "date-time"⟩
  else ⟨"string", none⟩

/-- Function `mapTypeNameToMssql` from the source: maps a procedure/function parameter
type name (plus length/precision/scale) to a bind type.  Here the int branch
reads `t.includes('int') && t !== 'bigint'`, so `bigint` reaches its own branch.
`maxLength = none` models an absent length; `precision = 0` / `scale = 0` model
the JS falsy defaults (`precision || 18`, `scale || 4`). -/
def mapTypeNameToMssql (typeName : String) (maxLength : Option Int) (precision scale : Int) :
    MssqlBindType :=
  let t := lowerStr typeName
  if strContains t "char" || t == "text" || t == "ntext" then
    match maxLength with
    | some n => if 0 < n then .nvarchar n else .nvarcharMax
    | none => .nvarcharMax
  else if strContains t "int" && !(t == "bigint") then .intType
  else if t == "bigint" then .bigIntType
  else if t == "bit" then .bitType
  else if strContains t "decimal" || t == "numeric" then
    .decimalType (if precision == 0 then 18 else precision) (if scale == 0 then 4 else scale)
  else if strContains t "float" || t == "real" then .floatType
  else if strContains t "date" || strContains t "time" then .dateTimeType
  else if t == "uniqueidentifier" then .nvarchar 50
  else .nvarcharMax

/-! ### JavaScript values and the template variable encoding -/

/-- A JSON value as it arrives in a request body.  Numbers are modelled as
integers (the claims only exercise integral values); objects/arrays are not
needed by any claim. -/
inductive JSValue where
  | jnull
  | jnum (n : Int)
  | jbool (b : Bool)
  | jstr (s : String)
  deriving DecidableEq

/-- JavaScript `String(v)`. -/
def jsToString : JSValue → String
  | .jnull => "null"
  | .jnum n => toString n
  | .jbool b => if b then "true" else "false"
  | .jstr s => s

/-- JavaScript `typeof v === 'number'`. -/
def isNumV : JSValue → Bool
  | .jnum _ => true
  | _ => false

/-- The regular expression `^\d+(\.\d+)?$` from `substituteTemplate`. -/
def isPlainNumeric (s : String) : Bool :=
  let d1 := s.data.takeWhile Char.isDigit
  let rest := s.data.dropWhile Char.isDigit
  !d1.isEmpty &&
    match rest with
    | [] => true
    | c :: r2 => c == Char.ofNat 46 && !r2.isEmpty && r2.all Char.isDigit

/-- JavaScript `s.replace(/'/g, "''")`: double every single quote. -/
def escSq (s : String) : String :=
  String.mk (s.data.flatMap (fun c => if c == sqC then [sqC, sqC] else [c]))

/-- The value encoding inside `substituteTemplate`, transcribed test for test:
null becomes the text `NULL`; a number is stringified; a string shaped like a
plain decimal number passes through unchanged; anything else has its embedded
single quotes doubled (and is not wrapped in quotes). -/
def encodeVar (v : JSValue) : String :=
  if v == .jnull then "NULL"
  else if isNumV v then jsToString v
  else if isPlainNumeric (jsToString v) then jsToString v
  else escSq (jsToString v)

/-- The variable encoding as the amended specification words it: numeric values
and plain-decimal-shaped strings are substituted unquoted and unchanged, null
becomes `NULL`, and every other value is substituted with its embedded single
quotes doubled but without surrounding quotes. -/
def encodeVarSpec : JSValue → String
  | .jnull => "NULL"
  | .jnum n => toString n
  | .jbool b => escSq (jsToString (.jbool b))
  | .jstr s => if isPlainNumeric s then s else escSq s

/-! ### The `substituteTemplate` scanner

JavaScript `template.replace(/{{\s*([a-zA-Z0-9_]+)\s*}}/g, fn)` scans left to
right: at each position it tries to match a placeholder; on a match the
replacement is emitted and scanning resumes after the match, otherwise the
current character is copied and scanning advances one position.  The regex is
deterministic here because word characters, whitespace and braces are pairwise
disjoint.  The recursion is made structural with a fuel argument bounded by the
remaining input length (the scanner consumes at least one character per step);
`substituteTemplate` supplies sufficient fuel. -/

/-- JavaScript `\s` (ASCII portion). -/
def isWsC (c : Char) : Bool := c.isWhitespace

/-- The regex character class `[a-zA-Z0-9_]`. -/
def isWordC (c : Char) : Bool := c.isAlphanum || c == Char.ofNat 95

/-- Match `\s*([a-zA-Z0-9_]+)\s*}}` at the start of `l` (the part of a
placeholder after the two opening braces); returns the captured name and the
remaining input after the two closing braces. -/
def matchPlaceholder (l : List Char) : Option (String × List Char) :=
  let l1 := l.dropWhile isWsC
  let nameCs := l1.takeWhile isWordC
  let l2 := l1.dropWhile isWordC
  let l3 := l2.dropWhile isWsC
  if nameCs.isEmpty then none
  else
    match l3 with
    | a :: b :: rest => if a == rbC && b == rbC then some (String.mk nameCs, rest) else none
    | _ => none

/-- Try to match a whole placeholder `{{\s*name\s*}}` at the start of `l`. -/
def tryPlaceholder (l : List Char) : Option (String × List Char) :=
  match l with
  | a :: b :: rest => if a == lbC && b == lbC then matchPlaceholder rest else none
  | _ => none

/-- The error message thrown for a placeholder with no supplied value. -/
def missingVarMsg (nm : String) : String := "Missing variable " ++ sqS ++ nm ++ sqS

/-- The property names every plain JavaScript object inherits from
`Object.prototype`, which the `in` operator reports as present even when the
request body has no such key. -/
def objectProtoNames : List String :=
  ["constructor", "hasOwnProperty", "isPrototypeOf", "propertyIsEnumerable",
   "toLocaleString", "toString", "valueOf", "__proto__",
   "__defineGetter__", "__defineSetter__", "__lookupGetter__", "__lookupSetter__"]

/-- JavaScript `key in vars` on a request body: an own key or an inherited
`Object.prototype` property name. -/
def hasVar (vars : List (String × JSValue)) (nm : String) : Bool :=
  (List.lookup nm vars).isSome || objectProtoNames.contains nm

/-- The text JavaScript renders for `String(({})[nm])` when `nm` is an
inherited `Object.prototype` property: the Node function-source rendering
`function nm() { [native code] }`, and `[object Object]` for the
`__proto__` accessor's value. -/
def inheritedValueText (nm : String) : String :=
  if nm == "__proto__" then "[object Object]"
  else "function " ++ nm ++ "() " ++ String.mk [lbC] ++ " [native code] " ++ String.mk [rbC]

/-- The replacement text for an available placeholder name: an own body value
goes through `encodeVar`; an inherited `Object.prototype` value is neither
null nor a number, so it goes through the plain-decimal test and the
quote-doubling branch of the same encoding. -/
def substValue (vars : List (String × JSValue)) (nm : String) : String :=
  match List.lookup nm vars with
  | some v => encodeVar v
  | none =>
    if isPlainNumeric (inheritedValueText nm) then inheritedValueText nm
    else escSq (inheritedValueText nm)

/-- The scanner core of `substituteTemplate`.  `vars` is the request body as a
key/value list; the availability test `key in vars` is `hasVar`, which also
sees the inherited `Object.prototype` property names. -/
def substCoreF (vars : List (String × JSValue)) : Nat → List Char → Except String (List Char)
  | _, [] => Except.ok []
  | 0, _ :: _ => Except.error "template scan fuel exhausted"
  | fuel + 1, c :: rest =>
    match tryPlaceholder (c :: rest) with
    | some (nm, rest2) =>
      if hasVar vars nm then
        Except.map (fun t => (substValue vars nm).data ++ t) (substCoreF vars fuel rest2)
      else Except.error (missingVarMsg nm)
    | none => Except.map (fun t => c :: t) (substCoreF vars fuel rest)

/-- Function `substituteTemplate` from the source: replace every `{{ name }}` by the
encoded value of `name`, failing on the first name absent from `vars`. -/
def substituteTemplate (template : String) (vars : List (String × JSValue)) :
    Except String String :=
  Except.map (fun l => String.mk l) (substCoreF vars template.data.length template.data)

/-! ### The read-only guard and the advanced route handler -/

/-- The denylist from `isReadOnly`, verbatim. -/
def bannedTokens : List String :=
  ["INSERT ", "UPDATE ", "DELETE ", "MERGE ", "ALTER ", "DROP ", "CREATE ",
   "TRUNCATE ", "EXEC ", "EXECUTE ", "GRANT ", "REVOKE ", "USE ",
   "BEGIN TRAN", "COMMIT", "ROLLBACK", "XP_", "SP_CONFIGURE"]

/-- Function `isReadOnly` from the source: uppercase the SQL text and reject it when any
denylist token occurs anywhere in it. -/
def isReadOnly (sqlText : String) : Bool :=
  !(bannedTokens.any (fun tok => strContains (upperStr sqlText) tok))

/-- The characters of the literal `DROP TABLE t` used by the claims. -/
def dropLit : List Char :=
  ['D', 'R', 'O', 'P', ' ', 'T', 'A', 'B', 'L', 'E', ' ', 't']

/-- Outcome of the advanced route handler.  `executed` means the handler
reached the database call with the given final statement batch; the two error
outcomes answer the request without any database call. -/
inductive AdvResult where
  | badRequest (msg : String)
  | serverError (msg : String)
  | executed (finalSql : String)
  deriving DecidableEq

/-- Message for a missing/imvalid `data` field. -/
def dataRequiredMsg : String := "Field " ++ sqS ++ "data" ++ sqS ++ " (base64) is required"

/-- Message for a guard rejection. -/
def readOnlyMsg : String := "Only read-only queries are permitted in advanced mode"

/-- The advanced route handler from `registerAdvancedRoute`, up to the database
call.  `data` carries the base64-decoded template when the `data` field is a
non-empty string (the base64 decoding itself is elided); `vars` is the request
body as a key/value list; `rowLimit` is the parsed `rowLimit` field (`none`
when absent or unparseable, matching `parseInt`/`Number.isFinite`).  A thrown
substitution error is caught by the surrounding try/catch and reported as a 500
server error; a guard rejection is a 400 client error issued before the
database call. -/
def handleAdvanced (data : Option String) (vars : List (String × JSValue))
    (rowLimit : Option Int) : AdvResult :=
  match data with
  | none => .badRequest dataRequiredMsg
  | some template =>
    match substituteTemplate template vars with
    | .error e => .serverError e
    | .ok sqlText =>
      if isReadOnly sqlText then
        .executed ("SET ROWCOUNT " ++ toString (rowLimit.getD 1000) ++ ";\n" ++ sqlText)
      else .badRequest readOnlyMsg

/-- Whether an `AdvResult` is an HTTP 400 client error. -/
def isBadRequestR : AdvResult → Bool
  | .badRequest _ => true
  | _ => false

/-- A `{{name}}` placeholder as template text. -/
def ph (nm : String) : String := String.mk [lbC, lbC] ++ nm ++ String.mk [rbC, rbC]

/-- The character list of a `{{name}}` placeholder. -/
def phChars (nm : String) : List Char := lbC :: lbC :: (nm.data ++ [rbC, rbC])

/-- The template `SELECT {{x}} AS v` from the specification example. -/
def c2Template : String := "SELECT " ++ ph "x" ++ " AS v"

/-- A template containing `DROP TABLE t` together with a placeholder. -/
def c3Template : String := "DROP TABLE t WHERE a = " ++ ph "x"

/-- A template referencing `{{missing}}`. -/
def c4Template : String := "SELECT " ++ ph "missing"

/-! ### Shape predicates used to reason about the scanner -/

/-- Every character is whitespace. -/
def AllWs (l : List Char) : Prop := ∀ c ∈ l, isWsC c = true

/-- Every character is a word character. -/
def AllWord (l : List Char) : Prop := ∀ c ∈ l, isWordC c = true

/-- The shape `\s* [a-zA-Z0-9_]* \s*` of the inside of a placeholder. -/
def SpanShape (l : List Char) : Prop :=
  ∃ w1 n w2, AllWs w1 ∧ AllWord n ∧ AllWs w2 ∧ l = w1 ++ n ++ w2

/-! ### Table metadata and the SQL synthesizer -/

/-- The per-table metadata assembled by `setupDynamicRoutes` and consumed by
`registerRoutes`.  `columns` is the ordered `COLUMN_NAME` projection of the
introspected columns (the `DATA_TYPE` only feeds parameter binding, which never
appears in the synthesized SQL text); `pk` is the primary-key column list; the
`identity` column is `none` when the table has none. -/
structure TableMeta where
  schema : String
  table : String
  columns : List String
  pk : List String
  isView : Bool
  hasTriggers : Bool
  identity : Option String
  deriving DecidableEq

/-- Function `qName` from the source. -/
def qName (schema table : String) : String := "[" ++ schema ++ "].[" ++ table ++ "]"

/-- JavaScript `body[k] !== undefined` on a request body. -/
def hasKey (body : List (String × JSValue)) (k : String) : Bool := (List.lookup k body).isSome

/-- The single primary-key column the routes are keyed on
(`const pk = tableMeta.pk && tableMeta.pk[0]`); routes using it exist only
when the list is non-empty. -/
def pkHead (meta : TableMeta) : String := meta.pk.headD ""

/-- The columns inserted by the create handler: the table columns present in
the request body, in column order. -/
def insertCols (meta : TableMeta) (body : List (String × JSValue)) : List String :=
  meta.columns.filter (fun c => hasKey body c)

/-- JavaScript `cols.join(',')` with each name bracketed. -/
def colsJoined (cols : List String) : String :=
  String.intercalate "," (cols.map (fun c => "[" ++ c ++ "]"))

/-- JavaScript `vals.join(',')`: the matching `@name` parameter markers. -/
def valsJoined (cols : List String) : String :=
  String.intercalate "," (cols.map (fun c => "@" ++ c))

/-- The `outSelect` column list of the staging-table strategies: the identity
column (when one exists) is re-expressed as `+ 0` so the staging table loses
the identity property. -/
def outSelectExpr (meta : TableMeta) : String :=
  String.intercalate ", " (meta.columns.map (fun c =>
    if (match meta.identity with | some i => c == i | none => false) then
      "t.[" ++ c ++ "] + 0 AS [" ++ c ++ "]"
    else "t.[" ++ c ++ "]"))

/-- The body-supplied-primary-key test of the create handler
(`tableMeta.pk && req.body[tableMeta.pk[0]] !== undefined`; with an empty `pk`
array the JS indexes the body with the key `"undefined"`). -/
def pkSuppliedInBody (meta : TableMeta) (body : List (String × JSValue)) : Bool :=
  hasKey body (meta.pk.headD "undefined")

/-- The create-route SQL synthesis, transcribed from the POST handler in
`registerRoutes` with the exact template-literal text (including indentation
and newlines). -/
def createBatchSql (meta : TableMeta) (body : List (String × JSValue)) : String :=
  let qn := qName meta.schema meta.table
  let cols := insertCols meta body
  if meta.hasTriggers then
    match meta.identity with
    | some idCol =>
      "\n              SET NOCOUNT ON;\n              INSERT INTO " ++ qn ++ " ("
        ++ colsJoined cols ++ ")\n              VALUES (" ++ valsJoined cols
        ++ ");\n              DECLARE @id numeric(38,0) = SCOPE_IDENTITY();\n              SELECT * FROM "
        ++ qn ++ " WHERE [" ++ idCol ++ "] = @id;\n            "
    | none =>
      if pkSuppliedInBody meta body then
        "\n              SET NOCOUNT ON;\n              INSERT INTO " ++ qn ++ " ("
          ++ colsJoined cols ++ ")\n              VALUES (" ++ valsJoined cols
          ++ ");\n              SELECT * FROM " ++ qn ++ " WHERE [" ++ pkHead meta
          ++ "] = @" ++ pkHead meta ++ ";\n            "
      else
        "\n              SET NOCOUNT ON;\n              IF OBJECT_ID(" ++ sqS
          ++ "tempdb..#out" ++ sqS
          ++ ") IS NOT NULL DROP TABLE #out;\n              SELECT TOP 0 "
          ++ outSelectExpr meta ++ " INTO #out FROM " ++ qn
          ++ " AS t WHERE 1 = 0;\n\n              INSERT INTO " ++ qn ++ " ("
          ++ colsJoined cols
          ++ ")\n              OUTPUT inserted.* INTO #out\n              VALUES ("
          ++ valsJoined cols
          ++ ");\n\n              SELECT * FROM #out;\n              DROP TABLE #out;\n            "
  else
    "INSERT INTO " ++ qn ++ " (" ++ colsJoined cols ++ ") OUTPUT inserted.* VALUES ("
      ++ valsJoined cols ++ ")"

/-- Strategy (1): insert then reselect by the `SCOPE_IDENTITY` value of the
identity column (trigger-bearing table with an identity column). -/
def createIdentityReselectSql (meta : TableMeta) (body : List (String × JSValue))
    (idCol : String) : String :=
  let qn := qName meta.schema meta.table
  let cols := insertCols meta body
  "\n              SET NOCOUNT ON;\n              INSERT INTO " ++ qn ++ " ("
    ++ colsJoined cols ++ ")\n              VALUES (" ++ valsJoined cols
    ++ ");\n              DECLARE @id numeric(38,0) = SCOPE_IDENTITY();\n              SELECT * FROM "
    ++ qn ++ " WHERE [" ++ idCol ++ "] = @id;\n            "

/-- Strategy (2): insert then reselect by the body-supplied primary key
(trigger-bearing table, no identity column, primary key present in the body). -/
def createPkReselectSql (meta : TableMeta) (body : List (String × JSValue)) : String :=
  let qn := qName meta.schema meta.table
  let cols := insertCols meta body
  "\n              SET NOCOUNT ON;\n              INSERT INTO " ++ qn ++ " ("
    ++ colsJoined cols ++ ")\n              VALUES (" ++ valsJoined cols
    ++ ");\n              SELECT * FROM " ++ qn ++ " WHERE [" ++ pkHead meta
    ++ "] = @" ++ pkHead meta ++ ";\n            "

/-- Strategy (3): capture the inserted row through a session-scoped `#out`
staging table fed by an `OUTPUT INTO` clause (trigger-bearing table with
neither an identity column nor a body-supplied primary key). -/
def createStagingSql (meta : TableMeta) (body : List (String × JSValue)) : String :=
  let qn := qName meta.schema meta.table
  let cols := insertCols meta body
  "\n              SET NOCOUNT ON;\n              IF OBJECT_ID(" ++ sqS
    ++ "tempdb..#out" ++ sqS
    ++ ") IS NOT NULL DROP TABLE #out;\n              SELECT TOP 0 "
    ++ outSelectExpr meta ++ " INTO #out FROM " ++ qn
    ++ " AS t WHERE 1 = 0;\n\n              INSERT INTO " ++ qn ++ " ("
    ++ colsJoined cols
    ++ ")\n              OUTPUT inserted.* INTO #out\n              VALUES ("
    ++ valsJoined cols
    ++ ");\n\n              SELECT * FROM #out;\n              DROP TABLE #out;\n            "

/-- Trigger-free path: a single insert returning the row directly from its
`OUTPUT inserted.*` clause. -/
def createDirectOutputSql (meta : TableMeta) (body : List (String × JSValue)) : String :=
  let qn := qName meta.schema meta.table
  let cols := insertCols meta body
  "INSERT INTO " ++ qn ++ " (" ++ colsJoined cols ++ ") OUTPUT inserted.* VALUES ("
    ++ valsJoined cols ++ ")"

/-! ### List route: ordering and pagination -/

/-- The list SQL text from the GET list handler, transcribed with the exact
branch structure: parse `limit` (default −1) and `offset` (default 0, clamped
to ≥ 0), then choose between no pagination clause, an `OFFSET`-only clause and
an `OFFSET` + `FETCH NEXT` clause.  `whereSql`/`orderSql` arrive pre-built as
in the source. -/
def listSqlText (meta : TableMeta) (whereSql orderSql : String)
    (limitParam offsetParam : Option Int) : String :=
  let limit := limitParam.getD (-1)
  let offset0 := offsetParam.getD 0
  let offset := if offset0 < 0 then 0 else offset0
  if limit < 0 ∧ offset = 0 then
    "SELECT * FROM " ++ qName meta.schema meta.table ++ " " ++ whereSql ++ " " ++ orderSql
  else if limit < 0 ∧ 0 ≤ offset then
    "SELECT * FROM " ++ qName meta.schema meta.table ++ " " ++ whereSql ++ " " ++ orderSql
      ++ " OFFSET @offset ROWS"
  else
    "SELECT * FROM " ++ qName meta.schema meta.table ++ " " ++ whereSql ++ " " ++ orderSql
      ++ " OFFSET @offset ROWS FETCH NEXT @limit ROWS ONLY"

/-- The pagination clause as the specification words it: skip+fetch for a
non-negative limit; nothing when no offset/limit was requested (negative limit,
zero offset); skip-only otherwise; `limit` defaults to −1, `offset` defaults to
0 and a negative offset is clamped to 0. -/
def paginationSuffixSpec (limitParam offsetParam : Option Int) : String :=
  let limit := limitParam.getD (-1)
  let offset := max (offsetParam.getD 0) 0
  if 0 ≤ limit then " OFFSET @offset ROWS FETCH NEXT @limit ROWS ONLY"
  else if offset = 0 then ""
  else " OFFSET @offset ROWS"

/-- JavaScript `String.prototype.split` with a one-character separator. -/
def splitCh (sep : Char) : List Char → List (List Char)
  | [] => [[]]
  | c :: t =>
    if c == sep then [] :: splitCh sep t
    else
      match splitCh sep t with
      | [] => [[c]]
      | h :: r => (c :: h) :: r

/-- JavaScript `s.split('.')`. -/
def splitDot (s : String) : List String := (splitCh (Char.ofNat 46) s.data).map String.mk

/-- The safe default sort column: the first primary-key column when it is a
non-empty name, else the first table column
(`pkColName || tableMeta.columns[0].COLUMN_NAME`; the `headD ""` models the
exceptional empty-column-list case, which cannot arise for a discovered
table). -/
def defaultOrderCol (columns pk : List String) : String :=
  match pk.head? with
  | some p => if p == "" then columns.headD "" else p
  | none => columns.headD ""

/-- The `ORDER BY` column and direction chosen by the list handler, transcribed
from the source: a falsy (absent or empty) `order` leaves the sort column unset
and falls back to the default sort column ascending; otherwise `order` is split
on `.` into column and directive (`DESC` only for an uppercased `DESC`
directive), falling back to the default sort column in ascending direction when
the parsed column is empty or not a known column. -/
def resolveOrder (orderParam : Option String) (columns pk : List String) : String × String :=
  match orderParam with
  | none => (defaultOrderCol columns pk, "ASC")
  | some s =>
    if s == "" then (defaultOrderCol columns pk, "ASC")
    else
      let parts := splitDot s
      let c := parts.headD ""
      let d := if upperStr (parts.getD 1 "") == "DESC" then "DESC" else "ASC"
      if c == "" || !(columns.contains c) then (defaultOrderCol columns pk, "ASC") else (c, d)

/-- The sort choice as the specification words it: an order parameter naming a
known column sorts by that column (descending exactly when its `.desc`
directive says so); otherwise — parameter omitted, empty or naming an unknown
column — the sort falls back to the primary-key column (or the first column if
no primary key) ascending. -/
def resolveOrderSpec (orderParam : Option String) (columns pk : List String) : String × String :=
  let parts := splitDot (orderParam.getD "")
  let requested := parts.headD ""
  if requested ∈ columns ∧ requested ≠ "" then
    (requested, if upperStr (parts.getD 1 "") == "DESC" then "DESC" else "ASC")
  else
    (defaultOrderCol columns pk, "ASC")

/-! ### Update route -/

/-- The `SET` fragments built by the update handler: one `[col] = @col` per
non-primary-key column present in the request body, in column order. -/
def updateSets (meta : TableMeta) (body : List (String × JSValue)) : List String :=
  (meta.columns.filter (fun c => !(c == pkHead meta) && hasKey body c)).map
    (fun c => "[" ++ c ++ "] = @" ++ c)

/-- The update SQL text, transcribed from the PUT handler: a plain
`UPDATE ... OUTPUT inserted.*` when the table has no enabled trigger, else a
`SET NOCOUNT ON` batch that updates and then reselects by primary key. -/
def updateSqlText (meta : TableMeta) (body : List (String × JSValue)) : String :=
  let qn := qName meta.schema meta.table
  let pk := pkHead meta
  let setsSql := String.intercalate ", " (updateSets meta body)
  if meta.hasTriggers then
    "\n            SET NOCOUNT ON;\n            UPDATE " ++ qn ++ " SET " ++ setsSql
      ++ " WHERE [" ++ pk ++ "] = @" ++ pk ++ ";\n            SELECT * FROM " ++ qn
      ++ " WHERE [" ++ pk ++ "] = @" ++ pk ++ ";\n          "
  else
    "UPDATE " ++ qn ++ " SET " ++ setsSql ++ " OUTPUT inserted.* WHERE [" ++ pk
      ++ "] = @" ++ pk

/-- Outcome of the update-by-key handler.  `clientError` is an HTTP 400 issued
without any database call; `notFound` is the HTTP 404 for an empty final result
set; `updatedRow` is the HTTP 200 carrying the first returned row. -/
inductive UpdateOutcome where
  | clientError (msg : String)
  | notFound
  | updatedRow (row : List (String × JSValue))
  deriving DecidableEq

/-- The 400 message for an empty update field set. -/
def noFieldsMsg : String := "No updatable fields provided"

/-- The update-by-key handler from `registerRoutes`, up to HTTP status
selection.  `db` abstracts the database: it maps the issued statement batch to
the rows of the final result set (`r.recordsets` last entry / `r.recordset`). -/
def updateHandler (meta : TableMeta) (body : List (String × JSValue))
    (db : String → List (List (String × JSValue))) : UpdateOutcome :=
  if (updateSets meta body).isEmpty then .clientError noFieldsMsg
  else
    match db (updateSqlText meta body) with
    | [] => .notFound
    | r :: _ => .updatedRow r

/-! ### Route registration and schema fragments -/

/-- Whether `registerRoutes` registers the single-row and write routes
(GET by key, POST, PUT, DELETE): the object must not be a view and
`tableMeta.pk && tableMeta.pk[0]` must be truthy, i.e. the primary-key list
must start with a non-empty column name. -/
def writesRegistered (meta : TableMeta) : Bool :=
  !meta.isView && !(meta.pk.headD "" == "")

/-- A table with a two-column primary key. -/
def c9Meta : TableMeta :=
  { schema := "dbo", table := "pairkeyed", columns := ["a", "b", "c"],
    pk := ["a", "b"], isView := false, hasTriggers := false, identity := none }

/-- The discovered object names of one endpoint, per kind. -/
structure Discovered where
  tables : List String
  views : List String
  procs : List String
  funcs : List String
  deriving DecidableEq

/-- The `{endpoint, kind, name}` triples of the routes registered by
`setupDynamicRoutes`, in registration order: tables, then views, procedures,
functions, and the advanced route when enabled (its route is `/{endpoint}/a`;
its schema fragment is named `advanced`). -/
def routeTriples (endpoint : String) (d : Discovered) (advanced : Bool) :
    List (String × String × String) :=
  d.tables.map (fun n => (endpoint, "t", n)) ++ d.views.map (fun n => (endpoint, "v", n))
    ++ d.procs.map (fun n => (endpoint, "p", n)) ++ d.funcs.map (fun n => (endpoint, "f", n))
    ++ (if advanced then [(endpoint, "a", "advanced")] else [])

/-- The schema registry key `${endpoint}_${name}` (note: no kind component). -/
def schemaKey (endpoint name : String) : String := endpoint ++ "_" ++ name

/-- JavaScript object property assignment `m[k] = v`: overwrite in place when
the key exists, else append. -/
def insertFragment (m : List (String × String)) (k v : String) : List (String × String) :=
  if m.any (fun e => e.1 == k) then m.map (fun e => if e.1 == k then (k, v) else e)
  else m ++ [(k, v)]

/-- The schema fragment registry built by `setupDynamicRoutes`, with each
fragment projected to its `x-msabon-kind` tag: one assignment per discovered
object keyed `${endpoint}_${name}`, in the same order the routes are
registered. -/
def schemaFragments (endpoint : String) (d : Discovered) (advanced : Bool) :
    List (String × String) :=
  ((d.tables.map (fun n => (schemaKey endpoint n, "t")))
      ++ (d.views.map (fun n => (schemaKey endpoint n, "v")))
      ++ (d.procs.map (fun n => (schemaKey endpoint n, "p")))
      ++ (d.funcs.map (fun n => (schemaKey endpoint n, "f")))
      ++ (if advanced then [(schemaKey endpoint "advanced", "a")] else [])).foldl
    (fun m kv => insertFragment m kv.1 kv.2) []

/-- A route triple corresponds to a fragment entry when the fragment key is the
route's `${endpoint}_${name}` and the fragment kind tag is the route kind. -/
def routeMatchesFragment (r : String × String × String) (s : String × String) : Bool :=
  s.1 == schemaKey r.1 r.2.2 && s.2 == r.2.1

/-- An endpoint where a discovered table and a discovered view share the name
`x`. -/
def c10Disc : Discovered := { tables := ["x"], views := ["x"], procs := [], funcs := [] }
/-! ## Segment lemmas -/

theorem leadsWith_nil (l : List Char) : LeadsWith [] l := ⟨l, rfl⟩

theorem leadsB_iff {p l : List Char} : leadsB p l = true ↔ LeadsWith p l := by
  induction p generalizing l with
  | nil =>
    simp only [leadsB, LeadsWith, true_iff]
    exact ⟨l, rfl⟩
  | cons a p ih =>
    cases l with
    | nil => simp [leadsB, LeadsWith]
    | cons b l =>
      simp only [leadsB, Bool.and_eq_true, beq_iff_eq]
      constructor
      · rintro ⟨rfl, h⟩
        obtain ⟨t, rfl⟩ := ih.mp h
        exact ⟨t, rfl⟩
      · rintro ⟨t, ht⟩
        rw [List.cons_append] at ht
        injection ht with h1 h2
        exact ⟨h1.symm, ih.mpr ⟨t, h2⟩⟩

theorem segIn_of_leadsWith {p l : List Char} (h : LeadsWith p l) : SegIn p l := by
  obtain ⟨t, rfl⟩ := h
  exact ⟨[], t, rfl⟩

theorem segIn_cons_of {p l : List Char} (c : Char) (h : SegIn p l) : SegIn p (c :: l) := by
  obtain ⟨s, t, rfl⟩ := h
  exact ⟨c :: s, t, rfl⟩

theorem segB_iff {p l : List Char} : segB p l = true ↔ SegIn p l := by
  induction l with
  | nil =>
    simp only [segB]
    rw [leadsB_iff]
    constructor
    · exact segIn_of_leadsWith
    · rintro ⟨s, t, ht⟩
      have hs : s = [] ∧ p ++ t = [] := by
        constructor
        · cases s with
          | nil => rfl
          | cons a s => simp at ht
        · cases s with
          | nil => simpa using ht.symm
          | cons a s => simp at ht
      obtain ⟨rfl, h2⟩ := hs
      exact ⟨t, by simpa using ht⟩
  | cons c l ih =>
    simp only [segB, Bool.or_eq_true]
    rw [leadsB_iff, ih]
    constructor
    · rintro (h | h)
      · exact segIn_of_leadsWith h
      · exact segIn_cons_of c h
    · rintro ⟨s, t, ht⟩
      cases s with
      | nil => exact Or.inl ⟨t, by simpa using ht⟩
      | cons a s =>
        rw [List.cons_append, List.cons_append] at ht
        injection ht with h1 h2
        exact Or.inr ⟨s, t, by simpa using h2⟩

theorem segIn_cons_iff {p : List Char} {c : Char} {l : List Char} :
    SegIn p (c :: l) ↔ LeadsWith p (c :: l) ∨ SegIn p l := by
  constructor
  · rintro ⟨s, t, ht⟩
    cases s with
    | nil => exact Or.inl ⟨t, by simpa using ht⟩
    | cons a s =>
      rw [List.cons_append, List.cons_append] at ht
      injection ht with h1 h2
      exact Or.inr ⟨s, t, h2⟩
  · rintro (h | h)
    · exact segIn_of_leadsWith h
    · exact segIn_cons_of c h

theorem segIn_append_left_of {p l : List Char} (a : List Char) (h : SegIn p l) :
    SegIn p (a ++ l) := by
  obtain ⟨s, t, rfl⟩ := h
  exact ⟨a ++ s, t, by simp⟩

theorem segIn_map {p l : List Char} (f : Char → Char) (h : SegIn p l) :
    SegIn (p.map f) (l.map f) := by
  obtain ⟨s, t, rfl⟩ := h
  exact ⟨s.map f, t.map f, by simp⟩

theorem segIn_trans {p q l : List Char} (h1 : SegIn p q) (h2 : SegIn q l) : SegIn p l := by
  obtain ⟨s1, t1, rfl⟩ := h1
  obtain ⟨s2, t2, rfl⟩ := h2
  exact ⟨s2 ++ s1, t1 ++ t2, by simp⟩

theorem segIn_strip {p m b : List Char} (hm : ∀ c ∈ m, c ∉ p) (h : SegIn p (m ++ b)) :
    SegIn p b := by
  induction m with
  | nil => simpa using h
  | cons c m ih =>
    have hcm : c ∉ p := hm c (by simp)
    have hm2 : ∀ x ∈ m, x ∉ p := fun x hx => hm x (by simp [hx])
    rw [List.cons_append] at h
    rcases segIn_cons_iff.mp h with hld | hseg
    · obtain ⟨t, ht⟩ := hld
      cases p with
      | nil => exact ⟨[], b, rfl⟩
      | cons a p =>
        rw [List.cons_append] at ht
        injection ht with h1 _
        exact absurd (by simp [h1] : c ∈ a :: p) hcm
    · exact ih hm2 hseg

theorem segIn_append_mid_elim {p a m b : List Char} (hm : ∀ c ∈ m, c ∉ p) (hmne : m ≠ [])
    (h : SegIn p (a ++ m ++ b)) : SegIn p a ∨ SegIn p b := by
  obtain ⟨s, t, ht⟩ := h
  rw [List.append_assoc] at ht
  rw [List.append_assoc] at ht
  rcases List.append_eq_append_iff.mp ht with ⟨k, hk1, hk2⟩ | ⟨k, hk1, hk2⟩
  · -- s = a ++ k, so the occurrence lies inside m ++ b
    right
    exact segIn_strip hm ⟨k, t, by simpa using hk2⟩
  · -- a = s ++ k and p ++ t = k ++ (m ++ b)
    rcases List.append_eq_append_iff.mp hk2.symm with ⟨j, hj1, hj2⟩ | ⟨j, hj1, hj2⟩
    · -- p = k ++ j and m ++ b = j ++ t
      cases j with
      | nil =>
        left
        have hkp : p = k := by simpa using hj1
        exact ⟨s, [], by simp [hk1, hkp]⟩
      | cons x j =>
        have hxp : x ∈ p := by simp [hj1]
        cases m with
        | nil => exact absurd rfl hmne
        | cons y m =>
          rw [List.cons_append] at hj2
          injection hj2 with h1 _
          exact absurd (h1 ▸ hxp) (hm y (by simp))
    · -- k = p ++ j: the occurrence lies inside a
      left
      exact ⟨s, j, by simp [hk1, hj1]⟩

theorem spanShape_tail {c : Char} {l : List Char} (h : SpanShape (c :: l)) : SpanShape l := by
  obtain ⟨w1, n, w2, h1, h2, h3, heq⟩ := h
  cases w1 with
  | cons a w1 =>
    rw [List.cons_append, List.cons_append] at heq
    injection heq with _ h5
    exact ⟨w1, n, w2, fun x hx => h1 x (by simp [hx]), h2, h3, h5⟩
  | nil =>
    cases n with
    | cons a n =>
      rw [List.nil_append, List.cons_append] at heq
      injection heq with _ h5
      exact ⟨[], n, w2, by intro x hx; simp at hx, fun x hx => h2 x (by simp [hx]), h3, by simpa using h5⟩
    | nil =>
      cases w2 with
      | nil => simp at heq
      | cons a w2 =>
        simp only [List.nil_append] at heq
        injection heq with _ h5
        exact ⟨[], [], w2, by intro x hx; simp at hx, by intro x hx; simp at hx,
          fun x hx => h3 x (by simp [hx]), by simpa using h5⟩

theorem spanShape_no_dropLit_aux : ∀ (s t : List Char), SpanShape (s ++ dropLit ++ t) → False := by
  intro s t
  induction s with
  | cons c s ih =>
    intro hs
    exact ih (spanShape_tail hs)
  | nil =>
    intro hs
    obtain ⟨w1, n, w2, h1, h2, h3, heq⟩ := hs
    rw [List.nil_append, List.append_assoc] at heq
    simp only [dropLit, List.cons_append, List.nil_append] at heq
    cases w1 with
    | cons a w1 =>
      rw [List.cons_append] at heq
      injection heq with ha _
      have hws := h1 a (by simp)
      rw [← ha] at hws
      exact absurd hws (by decide)
    | nil =>
      rw [List.nil_append] at heq
      cases n with
      | nil =>
        rw [List.nil_append] at heq
        have hmem : 'D' ∈ w2 := by rw [← heq]; simp
        exact absurd (h3 'D' hmem) (by decide)
      | cons a1 n =>
        rw [List.cons_append] at heq
        injection heq with ha1 heq
        cases n with
        | nil =>
          rw [List.nil_append] at heq
          have hmem : 'R' ∈ w2 := by rw [← heq]; simp
          exact absurd (h3 'R' hmem) (by decide)
        | cons a2 n =>
          rw [List.cons_append] at heq
          injection heq with ha2 heq
          cases n with
          | nil =>
            rw [List.nil_append] at heq
            have hmem : 'O' ∈ w2 := by rw [← heq]; simp
            exact absurd (h3 'O' hmem) (by decide)
          | cons a3 n =>
            rw [List.cons_append] at heq
            injection heq with ha3 heq
            cases n with
            | nil =>
              rw [List.nil_append] at heq
              have hmem : 'P' ∈ w2 := by rw [← heq]; simp
              exact absurd (h3 'P' hmem) (by decide)
            | cons a4 n =>
              rw [List.cons_append] at heq
              injection heq with ha4 heq
              cases n with
              | nil =>
                rw [List.nil_append] at heq
                have hmem : 'T' ∈ w2 := by rw [← heq]; simp
                exact absurd (h3 'T' hmem) (by decide)
              | cons a5 n =>
                rw [List.cons_append] at heq
                injection heq with ha5 _
                have hwd := h2 a5 (by simp)
                rw [← ha5] at hwd
                exact absurd hwd (by decide)

theorem spanShape_not_dropLit {l : List Char} (hs : SpanShape l) (hseg : SegIn dropLit l) :
    False := by
  obtain ⟨s, t, rfl⟩ := hseg
  exact spanShape_no_dropLit_aux s t hs

/-! ## Scanner lemmas -/

theorem tryPlaceholder_none_head {c : Char} {r : List Char} (h : ¬ c = lbC) :
    tryPlaceholder (c :: r) = none := by
  cases r with
  | nil => rfl
  | cons b r => simp [tryPlaceholder, h]

theorem matchPlaceholder_len {l : List Char} {nm : String} {r : List Char}
    (h : matchPlaceholder l = some (nm, r)) : r.length + 2 ≤ l.length := by
  have hchain : ((((l.dropWhile isWsC).dropWhile isWordC).dropWhile isWsC)).length ≤ l.length := by
    calc ((((l.dropWhile isWsC).dropWhile isWordC).dropWhile isWsC)).length
        ≤ (((l.dropWhile isWsC).dropWhile isWordC)).length :=
          (List.dropWhile_sublist _).length_le
      _ ≤ ((l.dropWhile isWsC)).length := (List.dropWhile_sublist _).length_le
      _ ≤ l.length := (List.dropWhile_sublist _).length_le
  unfold matchPlaceholder at h
  by_cases hne : ((l.dropWhile isWsC).takeWhile isWordC).isEmpty = true
  · rw [if_pos hne] at h; cases h
  · rw [if_neg hne] at h
    cases hsc : ((l.dropWhile isWsC).dropWhile isWordC).dropWhile isWsC with
    | nil => rw [hsc] at h; cases h
    | cons a tl =>
      cases tl with
      | nil => rw [hsc] at h; cases h
      | cons b rest =>
        rw [hsc] at h
        replace h : (if (a == rbC && b == rbC) = true
            then some (String.mk ((l.dropWhile isWsC).takeWhile isWordC), rest) else none)
            = some (nm, r) := h
        by_cases hab : (a == rbC && b == rbC) = true
        · rw [if_pos hab] at h
          have hr : rest = r := by
            injection h with hpair
            exact congrArg Prod.snd hpair
          rw [hsc] at hchain
          simp only [List.length_cons] at hchain
          subst hr
          omega
        · rw [if_neg hab] at h; cases h

theorem tryPlaceholder_len {l : List Char} {nm : String} {r : List Char}
    (h : tryPlaceholder l = some (nm, r)) : r.length + 4 ≤ l.length := by
  cases l with
  | nil => cases h
  | cons a tl =>
    cases tl with
    | nil => cases h
    | cons b rest =>
      replace h : (if (a == lbC && b == lbC) = true then matchPlaceholder rest else none)
          = some (nm, r) := h
      by_cases hab : (a == lbC && b == lbC) = true
      · rw [if_pos hab] at h
        have := matchPlaceholder_len h
        simp only [List.length_cons]
        omega
      · rw [if_neg hab] at h; cases h

theorem matchPlaceholder_decomp {l : List Char} {nm : String} {r : List Char}
    (h : matchPlaceholder l = some (nm, r)) :
    ∃ w1 n w2, AllWs w1 ∧ AllWord n ∧ AllWs w2 ∧
      l = (w1 ++ n ++ w2) ++ [rbC, rbC] ++ r := by
  unfold matchPlaceholder at h
  by_cases hne : ((l.dropWhile isWsC).takeWhile isWordC).isEmpty = true
  · rw [if_pos hne] at h; cases h
  · rw [if_neg hne] at h
    cases hsc : ((l.dropWhile isWsC).dropWhile isWordC).dropWhile isWsC with
    | nil => rw [hsc] at h; cases h
    | cons a tl =>
      cases tl with
      | nil => rw [hsc] at h; cases h
      | cons b rest =>
        rw [hsc] at h
        replace h : (if (a == rbC && b == rbC) = true
            then some (String.mk ((l.dropWhile isWsC).takeWhile isWordC), rest) else none)
            = some (nm, r) := h
        by_cases hab : (a == rbC && b == rbC) = true
        · rw [if_pos hab] at h
          obtain ⟨ha, hb⟩ : a = rbC ∧ b = rbC := by
            simpa [Bool.and_eq_true, beq_iff_eq] using hab
          have hr : rest = r := by
            injection h with hpair
            exact congrArg Prod.snd hpair
          refine ⟨l.takeWhile isWsC, (l.dropWhile isWsC).takeWhile isWordC,
            ((l.dropWhile isWsC).dropWhile isWordC).takeWhile isWsC,
            fun x hx => List.mem_takeWhile_imp hx,
            fun x hx => List.mem_takeWhile_imp hx,
            fun x hx => List.mem_takeWhile_imp hx, ?_⟩
          subst ha
          subst hb
          rw [← hr]
          have hassoc : (l.takeWhile isWsC ++ (l.dropWhile isWsC).takeWhile isWordC
                ++ ((l.dropWhile isWsC).dropWhile isWordC).takeWhile isWsC)
                ++ [rbC, rbC] ++ rest
              = l.takeWhile isWsC ++ ((l.dropWhile isWsC).takeWhile isWordC
                ++ (((l.dropWhile isWsC).dropWhile isWordC).takeWhile isWsC
                  ++ (rbC :: rbC :: rest))) := by
            simp
          rw [hassoc, ← hsc, List.takeWhile_append_dropWhile,
            List.takeWhile_append_dropWhile, List.takeWhile_append_dropWhile]
        · rw [if_neg hab] at h; cases h

theorem substCoreF_nil (vars : List (String × JSValue)) (fuel : Nat) :
    substCoreF vars fuel [] = Except.ok [] := by
  cases fuel <;> rfl

theorem substCoreF_cons_none {vars : List (String × JSValue)} {fuel : Nat} {c : Char}
    {rest : List Char} (h : tryPlaceholder (c :: rest) = none) :
    substCoreF vars (fuel + 1) (c :: rest) =
      Except.map (fun t => c :: t) (substCoreF vars fuel rest) := by
  simp [substCoreF, h]

theorem substCoreF_cons_some {vars : List (String × JSValue)} {fuel : Nat} {c : Char}
    {rest : List Char} {nm : String} {rest2 : List Char}
    (h : tryPlaceholder (c :: rest) = some (nm, rest2)) :
    substCoreF vars (fuel + 1) (c :: rest) =
      (if hasVar vars nm then
        Except.map (fun t => (substValue vars nm).data ++ t) (substCoreF vars fuel rest2)
      else Except.error (missingVarMsg nm)) := by
  simp [substCoreF, h]

theorem substCoreF_fuel_irrel (vars : List (String × JSValue)) :
    ∀ f1 f2 l, l.length ≤ f1 → l.length ≤ f2 →
      substCoreF vars f1 l = substCoreF vars f2 l := by
  intro f1
  induction f1 with
  | zero =>
    intro f2 l h1 _
    have hl : l = [] := List.eq_nil_of_length_eq_zero (Nat.le_zero.mp h1)
    subst hl
    rw [substCoreF_nil, substCoreF_nil]
  | succ f1 ih =>
    intro f2 l h1 h2
    cases l with
    | nil => rw [substCoreF_nil, substCoreF_nil]
    | cons c rest =>
      cases f2 with
      | zero => simp at h2
      | succ f2 =>
        cases htp : tryPlaceholder (c :: rest) with
        | none =>
          rw [substCoreF_cons_none htp, substCoreF_cons_none htp]
          rw [ih f2 rest (by simp only [List.length_cons] at h1; omega)
            (by simp only [List.length_cons] at h2; omega)]
        | some pr =>
          obtain ⟨nm, rest2⟩ := pr
          have hlen := tryPlaceholder_len htp
          simp only [List.length_cons] at hlen h1 h2
          rw [substCoreF_cons_some htp, substCoreF_cons_some htp]
          rw [ih f2 rest2 (by omega) (by omega)]

theorem substCoreF_lit (vars : List (String × JSValue)) :
    ∀ fuel p, p.length ≤ fuel → (∀ c ∈ p, ¬ c = lbC) →
      substCoreF vars fuel p = Except.ok p := by
  intro fuel
  induction fuel with
  | zero =>
    intro p h1 _
    have hp : p = [] := List.eq_nil_of_length_eq_zero (Nat.le_zero.mp h1)
    subst hp
    rw [substCoreF_nil]
  | succ fuel ih =>
    intro p h1 h2
    cases p with
    | nil => rw [substCoreF_nil]
    | cons c rest =>
      rw [substCoreF_cons_none (tryPlaceholder_none_head (h2 c (by simp)))]
      rw [ih rest (by simp only [List.length_cons] at h1; omega)
        (fun x hx => h2 x (by simp [hx]))]
      rfl

theorem substCoreF_copy (vars : List (String × JSValue)) :
    ∀ p fuel l, (p ++ l).length ≤ fuel → (∀ c ∈ p, ¬ c = lbC) →
      substCoreF vars fuel (p ++ l) =
        Except.map (fun t => p ++ t) (substCoreF vars l.length l) := by
  intro p
  induction p with
  | nil =>
    intro fuel l h1 _
    rw [List.nil_append] at h1 ⊢
    rw [substCoreF_fuel_irrel vars fuel l.length l h1 (Nat.le_refl _)]
    cases substCoreF vars l.length l <;> simp [Except.map]
  | cons c p ih =>
    intro fuel l h1 h2
    cases fuel with
    | zero => simp at h1
    | succ fuel =>
      rw [List.cons_append] at h1 ⊢
      rw [substCoreF_cons_none (tryPlaceholder_none_head (h2 c (by simp)))]
      rw [ih fuel l (by simp only [List.length_cons] at h1; omega)
        (fun x hx => h2 x (by simp [hx]))]
      cases substCoreF vars l.length l <;> simp [Except.map]

theorem substCoreF_placeholder_some (vars : List (String × JSValue)) {fuel : Nat} {c : Char}
    {rest : List Char} {nm : String} {q : List Char} {v : JSValue}
    (htp : tryPlaceholder (c :: rest) = some (nm, q))
    (hq : q.length ≤ fuel) (hqb : ∀ x ∈ q, ¬ x = lbC)
    (hv : List.lookup nm vars = some v) :
    substCoreF vars (fuel + 1) (c :: rest) = Except.ok ((encodeVar v).data ++ q) := by
  have hav : hasVar vars nm = true := by unfold hasVar; rw [hv]; rfl
  have hsv : substValue vars nm = encodeVar v := by unfold substValue; rw [hv]
  rw [substCoreF_cons_some htp, if_pos hav, hsv, substCoreF_lit vars fuel q hq hqb]
  rfl

theorem substCoreF_placeholder_missing (vars : List (String × JSValue)) {fuel : Nat} {c : Char}
    {rest : List Char} {nm : String} {q : List Char}
    (htp : tryPlaceholder (c :: rest) = some (nm, q))
    (hv : hasVar vars nm = false) :
    substCoreF vars (fuel + 1) (c :: rest) = Except.error (missingVarMsg nm) := by
  rw [substCoreF_cons_some htp, if_neg (by rw [hv]; exact Bool.false_ne_true)]

theorem substCoreF_keeps_lead (vars : List (String × JSValue)) :
    ∀ p fuel l out, (∀ c ∈ p, ¬ c = lbC) → LeadsWith p l →
      l.length ≤ fuel → substCoreF vars fuel l = Except.ok out → LeadsWith p out := by
  intro p
  induction p with
  | nil =>
    intro _ _ out _ _ _ _
    exact ⟨out, rfl⟩
  | cons c p ih =>
    intro fuel l out hb hld hlen hs
    obtain ⟨t, rfl⟩ := hld
    cases fuel with
    | zero => rw [List.cons_append] at hlen; simp at hlen
    | succ fuel =>
      rw [List.cons_append] at hs hlen
      rw [substCoreF_cons_none (tryPlaceholder_none_head (hb c (by simp)))] at hs
      cases hrec : substCoreF vars fuel (p ++ t) with
      | error e => rw [hrec] at hs; simp [Except.map] at hs
      | ok out2 =>
        rw [hrec] at hs
        simp only [Except.map, Except.ok.injEq] at hs
        obtain ⟨t2, ht2⟩ := ih fuel (p ++ t) out2 (fun x hx => hb x (by simp [hx])) ⟨t, rfl⟩
          (by simp only [List.length_cons] at hlen; omega) hrec
        exact ⟨t2, by rw [← hs, ht2]; rfl⟩

theorem substCoreF_keeps_dropLit (vars : List (String × JSValue)) :
    ∀ fuel l out, l.length ≤ fuel → substCoreF vars fuel l = Except.ok out →
      SegIn dropLit l → SegIn dropLit out := by
  intro fuel
  induction fuel with
  | zero =>
    intro l out h1 _ hseg
    have hl : l = [] := List.eq_nil_of_length_eq_zero (Nat.le_zero.mp h1)
    subst hl
    obtain ⟨s, t, ht⟩ := hseg
    exact absurd ht (by simp [dropLit])
  | succ fuel ih =>
    intro l out hlen hs hseg
    cases l with
    | nil =>
      obtain ⟨s, t, ht⟩ := hseg
      exact absurd ht (by simp [dropLit])
    | cons c rest =>
      rcases segIn_cons_iff.mp hseg with hld | hseg2
      · exact segIn_of_leadsWith
          (substCoreF_keeps_lead vars dropLit (fuel + 1) (c :: rest) out (by decide) hld hlen hs)
      · cases htp : tryPlaceholder (c :: rest) with
        | none =>
          rw [substCoreF_cons_none htp] at hs
          cases hrec : substCoreF vars fuel rest with
          | error e => rw [hrec] at hs; simp [Except.map] at hs
          | ok out2 =>
            rw [hrec] at hs
            simp only [Except.map, Except.ok.injEq] at hs
            rw [← hs]
            exact segIn_cons_of c
              (ih rest out2 (by simp only [List.length_cons] at hlen; omega) hrec hseg2)
        | some pr =>
          obtain ⟨nm, rest2⟩ := pr
          have hlen2 := tryPlaceholder_len htp
          simp only [List.length_cons] at hlen2
          rw [substCoreF_cons_some htp] at hs
          by_cases hav : hasVar vars nm = true
          case neg => rw [if_neg hav] at hs; simp at hs
          case pos =>
            rw [if_pos hav] at hs
            cases hrec : substCoreF vars fuel rest2 with
            | error e => rw [hrec] at hs; simp [Except.map] at hs
            | ok out2 =>
              rw [hrec] at hs
              simp only [Except.map, Except.ok.injEq] at hs
              -- extract the placeholder structure to show the occurrence is inside rest2
              cases rest with
              | nil => cases htp
              | cons d m =>
                have hdm : (c == lbC && d == lbC) = true ∧ matchPlaceholder m = some (nm, rest2) := by
                  have h2 : (if (c == lbC && d == lbC) = true then matchPlaceholder m else none)
                      = some (nm, rest2) := htp
                  by_cases hcd : (c == lbC && d == lbC) = true
                  · rw [if_pos hcd] at h2
                    exact ⟨hcd, h2⟩
                  · rw [if_neg hcd] at h2
                    cases h2
                have hd : d = lbC := by
                  have := hdm.1
                  simp only [Bool.and_eq_true, beq_iff_eq] at this
                  exact this.2
                rcases segIn_cons_iff.mp hseg2 with hld2 | hsegm
                · obtain ⟨t2, ht2⟩ := hld2
                  rw [show dropLit = 'D' :: ['R', 'O', 'P', ' ', 'T', 'A', 'B', 'L', 'E', ' ', 't'] from rfl,
                    List.cons_append] at ht2
                  injection ht2 with hD _
                  rw [hd] at hD
                  exact absurd hD.symm (by decide)
                · obtain ⟨w1, n, w2, hw1, hn, hw2, hm⟩ := matchPlaceholder_decomp hdm.2
                  rw [hm] at hsegm
                  rcases segIn_append_mid_elim (by decide) (by decide) hsegm with hin | hin
                  · exact absurd hin (fun hseg => spanShape_not_dropLit ⟨w1, n, w2, hw1, hn, hw2, rfl⟩ hseg)
                  · rw [← hs]
                    exact segIn_append_left_of _
                      (ih rest2 out2
                        (by simp only [List.length_cons] at hlen hlen2 ⊢; omega) hrec hin)

/-! ## String-level wrappers for the scanner -/

theorem substituteTemplate_ok_data {template : String} {vars : List (String × JSValue)}
    {out : String} (h : substituteTemplate template vars = Except.ok out) :
    substCoreF vars template.data.length template.data = Except.ok out.data := by
  unfold substituteTemplate at h
  cases hrec : substCoreF vars template.data.length template.data with
  | error e => rw [hrec] at h; simp [Except.map] at h
  | ok l =>
    rw [hrec] at h
    simp only [Except.map, Except.ok.injEq] at h
    rw [← h]

theorem substituteTemplate_keeps_dropLit {template : String} {vars : List (String × JSValue)}
    {out : String} (h : substituteTemplate template vars = Except.ok out)
    (hseg : segB dropLit template.data = true) : segB dropLit out.data = true :=
  segB_iff.mpr (substCoreF_keeps_dropLit vars template.data.length template.data out.data
    (Nat.le_refl _) (substituteTemplate_ok_data h) (segB_iff.mp hseg))

theorem isReadOnly_false_of_dropLit {s : String} (h : segB dropLit s.data = true) :
    isReadOnly s = false := by
  unfold isReadOnly
  rw [Bool.not_eq_false']
  rw [List.any_eq_true]
  refine ⟨"DROP ", by simp [bannedTokens], ?_⟩
  unfold strContains
  rw [segB_iff]
  have h1 : SegIn (dropLit.map Char.toUpper) ((upperStr s).data) :=
    segIn_map Char.toUpper (segB_iff.mp h)
  have h2 : SegIn ("DROP ".data) (dropLit.map Char.toUpper) := segB_iff.mp (by decide)
  exact segIn_trans h2 h1

theorem encodeVar_eq_spec (v : JSValue) : encodeVar v = encodeVarSpec v := by
  cases v with
  | jnull => decide
  | jbool b => cases b <;> decide
  | jnum n =>
    simp [encodeVar, encodeVarSpec, isNumV, jsToString, beq_iff_eq]
  | jstr s =>
    simp [encodeVar, encodeVarSpec, isNumV, jsToString, beq_iff_eq]

/-! ## Claim C1 -/

/-- Claim C1 (code bug): for the exact catalog type name `bigint`, the column
bind-type mapper and the column schema-type mapper hit the generic
`includes('int')` branch first, yielding the 32-bit `Int` bind type and a plain
`integer` schema type with no `int64` format — their `bigint` branches are
unreachable; only the parameter bind-type mapper tests `bigint` before the
generic int match and yields `BigInt` as the claim states for all three. -/
theorem C1_bigint_classification :
    mapSqlTypeToMssqlType "bigint" none = MssqlBindType.intType ∧
    toOpenApiType "bigint" = ⟨"integer", none⟩ ∧
    mapTypeNameToMssql "bigint" none 0 0 = MssqlBindType.bigIntType := by
  refine ⟨?_, ?_, ?_⟩ <;> decide

/-! ## Claim C2 -/

/-- Claim C2 counterexample: the non-numeric value `ab` is substituted without
surrounding single quotes: the code yields `SELECT ab AS v`, not the
single-quoted SQL string literal `SELECT 'ab' AS v` the claim requires. -/
theorem C2_counterexample :
    substituteTemplate c2Template [("x", JSValue.jstr "ab")] = Except.ok "SELECT ab AS v" ∧
    "SELECT ab AS v" ≠ "SELECT " ++ sqS ++ "ab" ++ sqS ++ " AS v" := by
  refine ⟨?_, ?_⟩ <;> decide

/-- Claim C2 as amended: numeric values and plain-decimal-shaped strings are
substituted unquoted and unchanged, null becomes `NULL`, and every other value
is substituted with embedded single quotes doubled but without surrounding
quotes; in particular `SELECT {{x}} AS v` with a supplied `x` yields
`SELECT <encoded x> AS v`, and with `x = 5` exactly `SELECT 5 AS v`. -/
theorem C2_substitution (vars : List (String × JSValue)) (v : JSValue)
    (hv : List.lookup "x" vars = some v) :
    encodeVar v = encodeVarSpec v ∧
    substituteTemplate c2Template vars =
      Except.ok ("SELECT " ++ encodeVarSpec v ++ " AS v") := by
  refine ⟨encodeVar_eq_spec v, ?_⟩
  have hdec : c2Template.data =
      "SELECT ".data ++ (lbC :: lbC :: 'x' :: rbC :: rbC :: " AS v".data) := by decide
  unfold substituteTemplate
  rw [hdec]
  rw [substCoreF_copy vars "SELECT ".data _ _ (Nat.le_refl _) (by decide)]
  rw [show (lbC :: lbC :: 'x' :: rbC :: rbC :: " AS v".data).length = 9 + 1 from by decide]
  rw [@substCoreF_placeholder_some vars 9 lbC (lbC :: 'x' :: rbC :: rbC :: " AS v".data)
    "x" (" AS v".data) v (by decide) (by decide) (by decide) hv]
  rw [← encodeVar_eq_spec v]
  simp only [Except.map]
  have hstr : String.mk ("SELECT ".data ++ ((encodeVar v).data ++ " AS v".data))
      = "SELECT " ++ encodeVar v ++ " AS v" := by
    have h1 : "SELECT " ++ encodeVar v ++ " AS v"
        = String.mk (("SELECT ".data ++ (encodeVar v).data) ++ " AS v".data) := rfl
    rw [h1, List.append_assoc]
  rw [hstr]

/-- Claim C2 witness: the specification example, `x = 5`. -/
theorem C2_substitution_witness :
    List.lookup "x" [("x", JSValue.jnum 5)] = some (JSValue.jnum 5) ∧
    substituteTemplate c2Template [("x", JSValue.jnum 5)] = Except.ok "SELECT 5 AS v" := by
  refine ⟨by decide, ?_⟩
  have h := (C2_substitution [("x", JSValue.jnum 5)] (JSValue.jnum 5) (by decide)).2
  rw [h]
  decide

/-! ## Claim C3 -/

/-- Claim C3 counterexample: a decoded template containing `DROP TABLE t` is
not always answered with 400 — when it also references a placeholder whose
value is not supplied, substitution throws first and the handler answers 500. -/
theorem C3_counterexample :
    handleAdvanced (some c3Template) [] none = AdvResult.serverError (missingVarMsg "x") ∧
    isBadRequestR (handleAdvanced (some c3Template) [] none) = false := by
  refine ⟨?_, ?_⟩ <;> decide

/-- Claim C3 as amended: after a successful substitution the SQL text is
scanned case-insensitively against the denylist and any match is rejected with
400 (no database call); in particular every decoded template containing
`DROP TABLE t` whose substitution succeeds is rejected with 400, for every
set of substitution values. -/
theorem C3_readonly_guard :
    (∀ (template : String) (vars : List (String × JSValue)) (rowLimit : Option Int)
      (out : String), substituteTemplate template vars = Except.ok out →
      isReadOnly out = false →
      handleAdvanced (some template) vars rowLimit = AdvResult.badRequest readOnlyMsg) ∧
    (∀ (template : String) (vars : List (String × JSValue)) (rowLimit : Option Int)
      (out : String), substituteTemplate template vars = Except.ok out →
      segB dropLit template.data = true →
      handleAdvanced (some template) vars rowLimit = AdvResult.badRequest readOnlyMsg) := by
  constructor
  · intro template vars rl out hsub hro
    simp [handleAdvanced, hsub, hro]
  · intro template vars rl out hsub hseg
    have hro := isReadOnly_false_of_dropLit (substituteTemplate_keeps_dropLit hsub hseg)
    simp [handleAdvanced, hsub, hro]

/-- Claim C3 witness: the placeholder-free template `DROP TABLE t` substitutes
to itself and is rejected with 400. -/
theorem C3_readonly_guard_witness :
    substituteTemplate "DROP TABLE t" [] = Except.ok "DROP TABLE t" ∧
    segB dropLit ("DROP TABLE t" : String).data = true ∧
    handleAdvanced (some "DROP TABLE t") [] none = AdvResult.badRequest readOnlyMsg :=
  ⟨by decide, by decide,
    C3_readonly_guard.2 "DROP TABLE t" [] none "DROP TABLE t" (by decide) (by decide)⟩

/-! ## Claim C4 -/

/-- Claim C4 counterexample: a decoded template referencing `{{missing}}` with
no corresponding body key is answered with a 500 server error (the thrown
substitution error is caught by the catch-all), not the 400 client error the
claim requires. -/
theorem C4_counterexample :
    handleAdvanced (some c4Template) [] none = AdvResult.serverError (missingVarMsg "missing") ∧
    isBadRequestR (handleAdvanced (some c4Template) [] none) = false := by
  refine ⟨?_, ?_⟩ <;> decide

/-- A word character is not whitespace. -/
theorem word_not_ws {c : Char} (h : isWordC c = true) : isWsC c = false := by
  by_contra hws
  rw [Bool.not_eq_false] at hws
  unfold isWsC Char.isWhitespace at hws
  simp only [Bool.or_eq_true, decide_eq_true_eq] at hws
  have hcase : c = ' ' ∨ c = '\t' ∨ c = '\r' ∨ c = '\n' := by tauto
  rcases hcase with rfl | rfl | rfl | rfl <;> exact absurd h (by decide)

theorem dropWhile_head_false {p : Char → Bool} {a : Char} {xs : List Char} (h : p a = false) :
    (a :: xs).dropWhile p = a :: xs := by
  simp [List.dropWhile_cons, h]

theorem takeWhile_append_all {p : Char → Bool} {xs : List Char} {y : Char} {r : List Char}
    (hxs : ∀ x ∈ xs, p x = true) (hy : p y = false) :
    (xs ++ y :: r).takeWhile p = xs := by
  induction xs with
  | nil => simp [List.takeWhile_cons, hy]
  | cons a xs ih =>
    rw [List.cons_append, List.takeWhile_cons, hxs a (by simp), if_pos rfl]
    rw [ih (fun x hx => hxs x (by simp [hx]))]

theorem dropWhile_append_all {p : Char → Bool} {xs : List Char} {y : Char} {r : List Char}
    (hxs : ∀ x ∈ xs, p x = true) (hy : p y = false) :
    (xs ++ y :: r).dropWhile p = y :: r := by
  induction xs with
  | nil => simp [List.dropWhile_cons, hy]
  | cons a xs ih =>
    rw [List.cons_append, List.dropWhile_cons, hxs a (by simp), if_pos rfl]
    exact ih (fun x hx => hxs x (by simp [hx]))

theorem matchPlaceholder_brace_head (xs : List Char) : matchPlaceholder (lbC :: xs) = none := by
  have h1 : (lbC :: xs).dropWhile isWsC = lbC :: xs := dropWhile_head_false (by decide)
  have h2 : (lbC :: xs).takeWhile isWordC = [] := by
    rw [List.takeWhile_cons]
    simp [show isWordC lbC = false from by decide]
  simp only [matchPlaceholder]
  rw [h1, h2]
  rfl

theorem tryPlaceholder_canonical (name : String) (t : List Char)
    (hword : name.data.all isWordC = true) (hne : name.data ≠ []) :
    tryPlaceholder (lbC :: lbC :: (name.data ++ rbC :: rbC :: t)) = some (name, t) := by
  have hwa : ∀ x ∈ name.data, isWordC x = true := fun x hx => List.all_eq_true.mp hword x hx
  have hstep : tryPlaceholder (lbC :: lbC :: (name.data ++ rbC :: rbC :: t))
      = matchPlaceholder (name.data ++ rbC :: rbC :: t) := by
    show (if (lbC == lbC && lbC == lbC) = true
        then matchPlaceholder (name.data ++ rbC :: rbC :: t) else none) = _
    rw [if_pos (by decide)]
  rw [hstep]
  obtain ⟨a, nd, hnd⟩ : ∃ a nd, name.data = a :: nd := by
    cases hcn : name.data with
    | nil => exact absurd hcn hne
    | cons a nd => exact ⟨a, nd, rfl⟩
  have h1 : (name.data ++ rbC :: rbC :: t).dropWhile isWsC = name.data ++ rbC :: rbC :: t := by
    rw [hnd, List.cons_append]
    exact dropWhile_head_false (word_not_ws (hwa a (by rw [hnd]; simp)))
  have h2 : (name.data ++ rbC :: rbC :: t).takeWhile isWordC = name.data :=
    takeWhile_append_all hwa (by decide)
  have h3 : (name.data ++ rbC :: rbC :: t).dropWhile isWordC = rbC :: rbC :: t :=
    dropWhile_append_all hwa (by decide)
  have h4 : (rbC :: rbC :: t).dropWhile isWsC = rbC :: rbC :: t :=
    dropWhile_head_false (by decide)
  simp only [matchPlaceholder]
  rw [h1, h2, h3, h4]
  rw [if_neg (by rw [hnd]; simp)]
  show (if (rbC == rbC && rbC == rbC) = true then some (String.mk name.data, t) else none)
      = some (name, t)
  rw [if_pos (by decide)]

theorem tryPlaceholder_of_leads {name : String} {l t : List Char}
    (hword : name.data.all isWordC = true) (hne : name.data ≠ [])
    (hld : l = phChars name ++ t) :
    tryPlaceholder l = some (name, t) := by
  have hshape : phChars name ++ t = lbC :: lbC :: (name.data ++ rbC :: rbC :: t) := by
    simp [phChars]
  rw [hld, hshape]
  exact tryPlaceholder_canonical name t hword hne

theorem segIn_right_of_head {p a b : List Char} {h : Char}
    (hph : p.head? = some h) (hha : h ∉ a) (hseg : SegIn p (a ++ b)) : SegIn p b := by
  obtain ⟨pt, rfl⟩ : ∃ pt, p = h :: pt := by
    cases p with
    | nil => cases hph
    | cons x pt =>
      simp only [List.head?_cons, Option.some.injEq] at hph
      exact ⟨pt, by rw [hph]⟩
  induction a with
  | nil => simpa using hseg
  | cons c a ih =>
    rw [List.cons_append] at hseg
    rcases segIn_cons_iff.mp hseg with hld | hs2
    · obtain ⟨t, ht⟩ := hld
      rw [List.cons_append] at ht
      injection ht with h1 _
      exact absurd (by rw [← h1]; exact List.mem_cons_self c a) hha
    · exact ih (fun hm => hha (List.mem_cons_of_mem c hm)) hs2

theorem substCoreF_missing_errors (vars : List (String × JSValue)) (name : String)
    (hword : name.data.all isWordC = true) (hne : name.data ≠ [])
    (hmiss : hasVar vars name = false) :
    ∀ fuel l, l.length ≤ fuel → SegIn (phChars name) l →
      ∃ nm, hasVar vars nm = false ∧
        substCoreF vars fuel l = Except.error (missingVarMsg nm) := by
  intro fuel
  induction fuel with
  | zero =>
    intro l hlen hseg
    have hl : l = [] := List.eq_nil_of_length_eq_zero (Nat.le_zero.mp hlen)
    subst hl
    obtain ⟨s, t, ht⟩ := hseg
    exact absurd ht (by simp [phChars])
  | succ fuel ih =>
    intro l hlen hseg
    cases l with
    | nil =>
      obtain ⟨s, t, ht⟩ := hseg
      exact absurd ht (by simp [phChars])
    | cons c rest =>
      cases htp : tryPlaceholder (c :: rest) with
      | none =>
        rcases segIn_cons_iff.mp hseg with hld | hseg2
        · obtain ⟨t, ht⟩ := hld
          rw [tryPlaceholder_of_leads hword hne ht] at htp
          cases htp
        · obtain ⟨nm, hnm, herr⟩ := ih rest
            (by simp only [List.length_cons] at hlen; omega) hseg2
          refine ⟨nm, hnm, ?_⟩
          rw [substCoreF_cons_none htp, herr]
          rfl
      | some pr =>
        obtain ⟨nm, rest2⟩ := pr
        by_cases hav : hasVar vars nm = true
        · rcases segIn_cons_iff.mp hseg with hld | hseg2
          · obtain ⟨t, ht⟩ := hld
            rw [tryPlaceholder_of_leads hword hne ht] at htp
            injection htp with hpair
            have hnmn : name = nm := congrArg Prod.fst hpair
            rw [← hnmn, hmiss] at hav
            cases hav
          · have hlen2 := tryPlaceholder_len htp
            simp only [List.length_cons] at hlen2
            cases rest with
            | nil => cases htp
            | cons d m =>
              have hdm : (c == lbC && d == lbC) = true ∧
                  matchPlaceholder m = some (nm, rest2) := by
                have h2 : (if (c == lbC && d == lbC) = true then matchPlaceholder m else none)
                    = some (nm, rest2) := htp
                by_cases hcd : (c == lbC && d == lbC) = true
                · rw [if_pos hcd] at h2
                  exact ⟨hcd, h2⟩
                · rw [if_neg hcd] at h2
                  cases h2
              obtain ⟨hcd, hmm2⟩ := hdm
              rcases segIn_cons_iff.mp hseg2 with hld2 | hsegm
              · obtain ⟨t2, ht2⟩ := hld2
                have hshape : phChars name ++ t2
                    = lbC :: lbC :: (name.data ++ rbC :: rbC :: t2) := by simp [phChars]
                rw [hshape] at ht2
                injection ht2 with _ hm0
                rw [hm0] at hmm2
                rw [matchPlaceholder_brace_head] at hmm2
                cases hmm2
              · obtain ⟨w1, n, w2, hw1, hn, hw2, hm⟩ := matchPlaceholder_decomp hmm2
                rw [hm] at hsegm
                have hnotmem : lbC ∉ (w1 ++ n ++ w2) ++ [rbC, rbC] := by
                  intro hmem
                  rcases List.mem_append.mp hmem with hmem | hmem
                  · rcases List.mem_append.mp hmem with hmem | hmem
                    · rcases List.mem_append.mp hmem with hmem | hmem
                      · exact absurd (hw1 lbC hmem) (by decide)
                      · exact absurd (hn lbC hmem) (by decide)
                    · exact absurd (hw2 lbC hmem) (by decide)
                  · rcases List.mem_cons.mp hmem with h1 | h1
                    · exact absurd h1 (by decide)
                    · rcases List.mem_cons.mp h1 with h2 | h2
                      · exact absurd h2 (by decide)
                      · cases h2
                have hseg3 : SegIn (phChars name) rest2 :=
                  segIn_right_of_head rfl hnotmem hsegm
                obtain ⟨nm2, hnm2, herr2⟩ := ih rest2
                  (by simp only [List.length_cons] at hlen hlen2; omega) hseg3
                refine ⟨nm2, hnm2, ?_⟩
                rw [substCoreF_cons_some htp, if_pos hav, herr2]
                rfl
        · refine ⟨nm, by simpa using hav, ?_⟩
          rw [substCoreF_cons_some htp, if_neg hav]

theorem substituteTemplate_missing_errors {template : String}
    {vars : List (String × JSValue)} {name : String}
    (hword : name.data.all isWordC = true) (hne : name.data ≠ [])
    (hmiss : hasVar vars name = false)
    (hcont : strContains template (ph name) = true) :
    ∃ nm, hasVar vars nm = false ∧
      substituteTemplate template vars = Except.error (missingVarMsg nm) := by
  have hphd : (ph name).data = phChars name := by
    simp [ph, phChars, String.data_append]
  have hseg : SegIn (phChars name) template.data := by
    rw [← hphd]
    exact segB_iff.mp hcont
  obtain ⟨nm, hnm, herr⟩ := substCoreF_missing_errors vars name hword hne hmiss
    template.data.length template.data (Nat.le_refl _) hseg
  refine ⟨nm, hnm, ?_⟩
  unfold substituteTemplate
  rw [herr]
  rfl

/-- Claim C4 as amended: for every advanced request whose decoded template
contains an intact placeholder over a name that is not visible on the request
body object — neither an own key nor an inherited `Object.prototype` property
name — the request fails before any database call, reported as an HTTP 500
server error carrying a missing-variable message (the scan may stop at an
earlier unavailable placeholder), not as a 400 client error.  A placeholder
naming an inherited `Object.prototype` property (for example `toString`) does
not fail at all: JavaScript `in` finds the inherited property and its rendered
text is substituted, as the second conjunct shows. -/
theorem C4_missing_variable :
    (∀ (template : String) (vars : List (String × JSValue)) (rowLimit : Option Int)
        (name : String),
      name.data.all isWordC = true → name.data ≠ [] →
      hasVar vars name = false →
      strContains template (ph name) = true →
      ∃ nm, hasVar vars nm = false ∧
        handleAdvanced (some template) vars rowLimit
          = AdvResult.serverError (missingVarMsg nm)) ∧
    handleAdvanced (some ("SELECT " ++ ph "toString")) [] none
      = AdvResult.executed ("SET ROWCOUNT 1000;\n" ++ "SELECT " ++ substValue [] "toString") := by
  constructor
  · intro template vars rl name hword hne hmiss hcont
    obtain ⟨nm, hnm, herr⟩ := substituteTemplate_missing_errors hword hne hmiss hcont
    exact ⟨nm, hnm, by simp [handleAdvanced, herr]⟩
  · decide

/-- Claim C4 witness: the specification example `{{missing}}` against an empty
body. -/
theorem C4_missing_variable_witness :
    hasVar ([] : List (String × JSValue)) "missing" = false ∧
    strContains c4Template (ph "missing") = true ∧
    handleAdvanced (some c4Template) [] none
      = AdvResult.serverError (missingVarMsg "missing") := by
  refine ⟨by decide, by decide, ?_⟩
  obtain ⟨nm, -, herr⟩ := C4_missing_variable.1 c4Template [] none "missing"
    (by decide) (by decide) (by decide) (by decide)
  have hpin : AdvResult.serverError (missingVarMsg nm)
      = AdvResult.serverError (missingVarMsg "missing") := by
    rw [← herr]
    decide
  exact herr.trans hpin

/-! ## Claim C5 -/

/-- Claim C5 (confirmed): the create-route SQL picks exactly one strategy in
priority order.  With an enabled trigger: (1) an identity column forces the
scope-identity reselect batch regardless of the body; (2) else a body-supplied
primary key forces the reselect-by-key batch; (3) else the `OUTPUT INTO`
staging-table batch.  Without an enabled trigger the row is captured directly
from the insert statement's `OUTPUT` clause. -/
theorem C5_create_strategy (meta : TableMeta) (body : List (String × JSValue)) :
    (∀ idCol, meta.hasTriggers = true → meta.identity = some idCol →
      createBatchSql meta body = createIdentityReselectSql meta body idCol) ∧
    (meta.hasTriggers = true → meta.identity = none → pkSuppliedInBody meta body = true →
      createBatchSql meta body = createPkReselectSql meta body) ∧
    (meta.hasTriggers = true → meta.identity = none → pkSuppliedInBody meta body = false →
      createBatchSql meta body = createStagingSql meta body) ∧
    (meta.hasTriggers = false →
      createBatchSql meta body = createDirectOutputSql meta body) := by
  refine ⟨?_, ?_, ?_, ?_⟩
  · intro idCol ht hid
    simp [createBatchSql, createIdentityReselectSql, ht, hid]
  · intro ht hid hpk
    simp [createBatchSql, createPkReselectSql, ht, hid, hpk]
  · intro ht hid hpk
    simp [createBatchSql, createStagingSql, ht, hid, hpk]
  · intro ht
    simp [createBatchSql, createDirectOutputSql, ht]

/-- Claim C5 witness: one concrete table per strategy. -/
theorem C5_create_strategy_witness :
    createBatchSql ⟨"dbo", "t1", ["id", "name"], ["id"], false, true, some "id"⟩
        [("name", JSValue.jstr "w")]
      = createIdentityReselectSql ⟨"dbo", "t1", ["id", "name"], ["id"], false, true, some "id"⟩
        [("name", JSValue.jstr "w")] "id" ∧
    createBatchSql ⟨"dbo", "t2", ["k", "name"], ["k"], false, true, none⟩
        [("k", JSValue.jnum 1)]
      = createPkReselectSql ⟨"dbo", "t2", ["k", "name"], ["k"], false, true, none⟩
        [("k", JSValue.jnum 1)] ∧
    createBatchSql ⟨"dbo", "t3", ["k", "name"], ["k"], false, true, none⟩
        [("name", JSValue.jstr "w")]
      = createStagingSql ⟨"dbo", "t3", ["k", "name"], ["k"], false, true, none⟩
        [("name", JSValue.jstr "w")] ∧
    createBatchSql ⟨"dbo", "t4", ["id", "name"], ["id"], false, false, none⟩
        [("name", JSValue.jstr "w")]
      = createDirectOutputSql ⟨"dbo", "t4", ["id", "name"], ["id"], false, false, none⟩
        [("name", JSValue.jstr "w")] :=
  ⟨(C5_create_strategy _ _).1 "id" rfl rfl,
    (C5_create_strategy _ _).2.1 rfl rfl (by decide),
    (C5_create_strategy _ _).2.2.1 rfl rfl (by decide),
    (C5_create_strategy _ _).2.2.2 rfl⟩

/-! ## Claim C6 -/

/-- Claim C6 (confirmed): the synthesized list SQL is the base select plus the
pagination clause the specification describes — nothing when no offset/limit
was requested (negative limit, zero offset), `OFFSET` only when the limit is
negative and a positive offset was given, and `OFFSET` + `FETCH NEXT` for a
non-negative limit; the limit defaults to −1 (no cap), the offset defaults to
0 and a negative offset is clamped to 0. -/
theorem C6_list_pagination (meta : TableMeta) (whereSql orderSql : String)
    (limitParam offsetParam : Option Int) :
    listSqlText meta whereSql orderSql limitParam offsetParam =
      ("SELECT * FROM " ++ qName meta.schema meta.table ++ " " ++ whereSql ++ " " ++ orderSql)
        ++ paginationSuffixSpec limitParam offsetParam := by
  simp only [listSqlText, paginationSuffixSpec]
  have hoff : (if offsetParam.getD 0 < 0 then 0 else offsetParam.getD 0)
      = max (offsetParam.getD 0) 0 := by
    rcases le_or_lt 0 (offsetParam.getD 0) with h | h
    · rw [if_neg (not_lt.mpr h), max_eq_left h]
    · rw [if_pos h, max_eq_right (le_of_lt h)]
  rw [hoff]
  rcases le_or_lt 0 (limitParam.getD (-1)) with hl | hl
  · rw [if_neg (by omega), if_neg (by omega), if_pos hl]
  · by_cases ho : max (offsetParam.getD 0) 0 = 0
    · rw [if_pos ⟨hl, ho⟩, if_neg (by omega), if_pos ho, String.append_empty]
    · rw [if_neg (by tauto), if_pos ⟨hl, le_max_right _ _⟩, if_neg (by omega), if_neg ho]

/-! ## Claim C7 -/

/-- Claim C7 (confirmed): the `ORDER BY` column chosen for the list SQL is
always a member of the object's known column set, and the choice agrees with
the specification: an order parameter naming a known column sorts by that
column (descending only for a `.desc` directive), anything else — omitted,
empty or unknown — falls back to the primary-key column (or first column when
no primary key) in ascending direction, without erroring. -/
theorem C7_order_column (orderParam : Option String) (columns pk : List String)
    (hcols : columns ≠ []) (hpk : ∀ p, pk.head? = some p → p ∈ columns) :
    (resolveOrder orderParam columns pk).1 ∈ columns ∧
    resolveOrder orderParam columns pk = resolveOrderSpec orderParam columns pk := by
  have hhead : columns.headD "" ∈ columns := by
    cases columns with
    | nil => exact absurd rfl hcols
    | cons a t => simp
  have hdef : defaultOrderCol columns pk ∈ columns := by
    unfold defaultOrderCol
    cases hp : pk.head? with
    | none => exact hhead
    | some p =>
      show (if (p == "") = true then columns.headD "" else p) ∈ columns
      by_cases hpe : (p == "") = true
      · rw [if_pos hpe]; exact hhead
      · rw [if_neg hpe]; exact hpk p hp
  have hiff : ∀ c : String, ((c == "" || !(columns.contains c)) = true) ↔
      ¬(c ∈ columns ∧ c ≠ "") := by
    intro c
    rw [Bool.or_eq_true, beq_iff_eq, Bool.not_eq_true']
    constructor
    · rintro (rfl | h) ⟨hmem, hne⟩
      · exact hne rfl
      · rw [← @List.elem_iff String _ _ c columns] at hmem
        have h2 : List.elem c columns = false := h
        rw [h2] at hmem
        cases hmem
    · intro h
      by_cases hce : c = ""
      · exact Or.inl hce
      · refine Or.inr ?_
        rw [Bool.eq_false_iff]
        intro hcont
        exact h ⟨List.elem_iff.mp hcont, hce⟩
  cases orderParam with
  | none =>
    refine ⟨hdef, ?_⟩
    simp [resolveOrder, resolveOrderSpec, splitDot, splitCh]
  | some s =>
    by_cases hse : (s == "") = true
    · have hs0 : s = "" := by simpa using hse
      subst hs0
      refine ⟨?_, ?_⟩
      · simp only [resolveOrder, if_pos hse]
        exact hdef
      · simp [resolveOrder, resolveOrderSpec, splitDot, splitCh]
    · simp only [resolveOrder, resolveOrderSpec, if_neg hse, Option.getD_some]
      by_cases hc : (((splitDot s).headD "" == "")
          || !(columns.contains ((splitDot s).headD ""))) = true
      · rw [if_pos hc, if_neg ((hiff _).mp hc)]
        exact ⟨hdef, rfl⟩
      · have hcond := not_not.mp (fun hn => hc ((hiff _).mpr hn))
        rw [if_neg hc, if_pos hcond]
        exact ⟨hcond.1, rfl⟩

/-- Claim C7 witness: a known column with a `.desc` directive on a table with
primary key `id`. -/
theorem C7_order_column_witness :
    (["id", "name"] : List String) ≠ [] ∧
    (resolveOrder (some "name.desc") ["id", "name"] ["id"]).1 ∈ ["id", "name"] ∧
    resolveOrder (some "name.desc") ["id", "name"] ["id"]
      = resolveOrderSpec (some "name.desc") ["id", "name"] ["id"] := by
  have h := C7_order_column (some "name.desc") ["id", "name"] ["id"] (by decide)
    (by intro p hp; simp only [List.head?_cons, Option.some.injEq] at hp; simp [← hp])
  exact ⟨by decide, h.1, h.2⟩

/-! ## Claim C8 -/

/-- Claim C8 (confirmed): an update whose body contains no recognized
non-primary-key column is answered with the 400 message `No updatable fields
provided` and issues no database statement (the outcome is the same for every
database); an update with at least one recognized field whose statement
returns no rows is answered with 404. -/
theorem C8_update_field_rules (meta : TableMeta) (body : List (String × JSValue))
    (db : String → List (List (String × JSValue))) :
    ((∀ c ∈ meta.columns, c = pkHead meta ∨ hasKey body c = false) →
      updateHandler meta body db = UpdateOutcome.clientError noFieldsMsg ∧
      ∀ db2, updateHandler meta body db2 = updateHandler meta body db) ∧
    ((∃ c ∈ meta.columns, c ≠ pkHead meta ∧ hasKey body c = true) →
      db (updateSqlText meta body) = [] →
      updateHandler meta body db = UpdateOutcome.notFound) := by
  constructor
  · intro hempty
    have hsets : updateSets meta body = [] := by
      unfold updateSets
      rw [List.map_eq_nil_iff, List.filter_eq_nil_iff]
      intro c hc
      rcases hempty c hc with h | h
      · simp [h]
      · simp [h]
    constructor
    · unfold updateHandler
      rw [hsets]
      rfl
    · intro db2
      unfold updateHandler
      rw [hsets]
      simp
  · rintro ⟨c, hc, hne, hk⟩ hdb
    have hsets : (updateSets meta body).isEmpty = false := by
      rw [Bool.eq_false_iff]
      intro hemp
      rw [List.isEmpty_iff] at hemp
      unfold updateSets at hemp
      rw [List.map_eq_nil_iff, List.filter_eq_nil_iff] at hemp
      have := hemp c hc
      simp [hne, hk] at this
    unfold updateHandler
    rw [hsets]
    simp only [Bool.false_eq_true, if_false]
    rw [hdb]

/-- Claim C8 witness: a table `t1(id, name)` keyed on `id`; an empty body
gives the 400 without consulting the database, and a body updating `name`
against a database returning no rows gives the 404. -/
theorem C8_update_field_rules_witness :
    updateHandler ⟨"dbo", "t1", ["id", "name"], ["id"], false, false, none⟩ []
      (fun _ => []) = UpdateOutcome.clientError noFieldsMsg ∧
    updateHandler ⟨"dbo", "t1", ["id", "name"], ["id"], false, false, none⟩
      [("name", JSValue.jstr "w")] (fun _ => []) = UpdateOutcome.notFound := by
  constructor
  · exact ((C8_update_field_rules _ _ _).1 (by decide)).1
  · exact (C8_update_field_rules _ _ _).2 ⟨"name", by decide, by decide, by decide⟩ rfl

/-! ## Claim C9 -/

/-- Claim C9 counterexample: a non-view table with a two-column primary key
does get the write routes (keyed on the first primary-key column), refuting
the claim that they are registered only for a single-column primary key. -/
theorem C9_counterexample :
    writesRegistered c9Meta = true ∧ c9Meta.pk.length = 2 := by
  refine ⟨?_, ?_⟩ <;> decide

/-- Claim C9 as amended: the write operations are registered exactly when the
object is not a view and its primary-key column list starts with a non-empty
column name — so a table with no primary key and every view get only the list
operation, while a multi-column primary key does get write routes (keyed on
its first column). -/
theorem C9_writes_condition (meta : TableMeta) :
    writesRegistered meta = true ↔
      meta.isView = false ∧ ∃ p, meta.pk.head? = some p ∧ p ≠ "" := by
  unfold writesRegistered
  cases hpk : meta.pk with
  | nil => simp
  | cons p rest => simp

/-! ## Claim C10 -/

/-- Claim C10 counterexample: with a table and a view both named `x` under
endpoint `api`, two routes are registered but the fragment registry (keyed by
`${endpoint}_${name}` with no kind component) holds a single entry, and the
table route has no corresponding fragment — the one-to-one correspondence
fails exactly in the same-name/different-kind case the claim covers. -/
theorem C10_counterexample :
    (routeTriples "api" c10Disc false).length = 2 ∧
    (schemaFragments "api" c10Disc false).length = 1 ∧
    ((routeTriples "api" c10Disc false).all (fun r =>
      (schemaFragments "api" c10Disc false).any (fun s => routeMatchesFragment r s))) = false := by
  refine ⟨?_, ?_, ?_⟩ <;> decide

theorem insertFragment_of_newKey {m : List (String × String)} {k v : String}
    (h : ∀ e ∈ m, e.1 ≠ k) : insertFragment m k v = m ++ [(k, v)] := by
  have hany : m.any (fun e => e.1 == k) = false := by
    rw [List.any_eq_false]
    intro e he
    simp [h e he]
  unfold insertFragment
  rw [hany]
  simp

theorem foldl_insertFragment (items : List (String × String)) :
    ∀ acc : List (String × String),
      (acc.map Prod.fst ++ items.map Prod.fst).Nodup →
      items.foldl (fun m kv => insertFragment m kv.1 kv.2) acc = acc ++ items := by
  induction items with
  | nil =>
    intro acc _
    simp
  | cons kv items ih =>
    intro acc hnd
    have hnew : ∀ e ∈ acc, e.1 ≠ kv.1 := by
      intro e he heq
      rw [List.map_cons, List.nodup_append] at hnd
      exact hnd.2.2 (List.mem_map_of_mem Prod.fst he) (by simp [heq])
    simp only [List.foldl_cons]
    rw [insertFragment_of_newKey hnew]
    rw [ih (acc ++ [(kv.1, kv.2)]) (by simpa using hnd)]
    simp

theorem schemaKey_inj {endpoint a b : String} (h : schemaKey endpoint a = schemaKey endpoint b) :
    a = b := by
  unfold schemaKey at h
  have hd : (endpoint ++ "_").data ++ a.data = (endpoint ++ "_").data ++ b.data := by
    have h1 := congrArg String.data h
    simpa [String.data_append] using h1
  have h2 := List.append_cancel_left hd
  cases a
  cases b
  exact congrArg String.mk h2

/-- Claim C10 as amended: when the discovered names are pairwise distinct
across all kinds under an endpoint (including the synthetic `advanced` name
when the advanced capability is enabled), the fragment registry is exactly the
route list mapped through `{endpoint, kind, name} ↦ (${endpoint}_${name},
kind)` — a one-to-one, order-preserving correspondence between registered
routes and schema fragments; the correspondence can fail only when two
discovered objects of different kinds share a name. -/
theorem C10_fragment_route_correspondence (endpoint : String) (d : Discovered)
    (advanced : Bool)
    (hnd : (d.tables ++ d.views ++ d.procs ++ d.funcs
        ++ (if advanced then ["advanced"] else [])).Nodup) :
    schemaFragments endpoint d advanced =
      (routeTriples endpoint d advanced).map (fun r => (schemaKey r.1 r.2.2, r.2.1)) := by
  have hitems : (d.tables.map (fun n => (schemaKey endpoint n, "t")))
      ++ (d.views.map (fun n => (schemaKey endpoint n, "v")))
      ++ (d.procs.map (fun n => (schemaKey endpoint n, "p")))
      ++ (d.funcs.map (fun n => (schemaKey endpoint n, "f")))
      ++ (if advanced then [(schemaKey endpoint "advanced", "a")] else [])
      = (routeTriples endpoint d advanced).map (fun r => (schemaKey r.1 r.2.2, r.2.1)) := by
    unfold routeTriples
    simp only [List.map_append, List.map_map]
    cases advanced <;> simp [Function.comp_def]
  have hkeys : ((d.tables.map (fun n => (schemaKey endpoint n, "t")))
      ++ (d.views.map (fun n => (schemaKey endpoint n, "v")))
      ++ (d.procs.map (fun n => (schemaKey endpoint n, "p")))
      ++ (d.funcs.map (fun n => (schemaKey endpoint n, "f")))
      ++ (if advanced then [(schemaKey endpoint "advanced", "a")] else [])).map Prod.fst
      = (d.tables ++ d.views ++ d.procs ++ d.funcs
        ++ (if advanced then ["advanced"] else [])).map (fun n => schemaKey endpoint n) := by
    simp only [List.map_append, List.map_map]
    cases advanced <;> simp [Function.comp_def]
  unfold schemaFragments
  rw [foldl_insertFragment _ [] ?hn]
  case hn =>
    simp only [List.map_nil, List.nil_append]
    rw [hkeys]
    exact hnd.map (fun a b h => schemaKey_inj h)
  rw [List.nil_append]
  exact hitems

/-- Claim C10 amended-claim witness: two tables and a view with distinct
names. -/
theorem C10_fragment_route_correspondence_witness :
    ((["a", "b"] ++ ["c"] ++ [] ++ [] ++ (if false then ["advanced"] else [])) : List String).Nodup
    ∧ schemaFragments "api" ⟨["a", "b"], ["c"], [], []⟩ false =
      (routeTriples "api" ⟨["a", "b"], ["c"], [], []⟩ false).map
        (fun r => (schemaKey r.1 r.2.2, r.2.1)) :=
  ⟨by decide, C10_fragment_route_correspondence "api" ⟨["a", "b"], ["c"], [], []⟩ false (by decide)⟩

end Msabon
